import Mathlib

/-!
Verification development for the "jaka-to-melodia" multiplayer music-quiz
server.  The file shallowly embeds, in Lean 4, the parts of the source that
the specification's claims are about:

* the text normaliser and the two fuzzy matchers (`normalize`,
  `isGuessCorrect`, `getDetailedMatch`) of the server's utils module,
  together with the `string-similarity` Dice coefficient they call;
* the per-room game engine operations of the socket server (join,
  disconnect, startGame, guess, voteSkip, buzz, passBuzzer, awardPoints,
  deductPoints, endRoundManual, pauseRound, resumeRound).

Strings are modelled as lists of Unicode code points.  JavaScript specifics
are modelled explicitly and noted where approximated:

* the regex `\s` class is the exact JavaScript whitespace set;
* `String.prototype.toLowerCase` is modelled on the ASCII range (the
  repertoire every claim exercises is Latin; special Unicode lowercase
  expansions are not in play);
* the Unicode classes `\p{L}`/`\p{N}` of the punctuation-stripping step are
  modelled as ASCII alphanumerics plus all non-ASCII code points: every
  ASCII punctuation character is dropped exactly as in the source and
  non-ASCII letters are kept exactly as in the source;
* IEEE-754 threshold comparisons (`>= 0.7`, `>= 0.65`) are modelled over ℚ;
* `Date.now()` values are inputs of the operations that read the clock.
-/

namespace JTM

/-- The JavaScript regex `\s` class (ECMA-262 WhiteSpace ∪ LineTerminator). -/
def isJsSpace (c : Char) : Bool :=
  c = ' ' || c = '\t' || c = '\n' || c.toNat = 11 || c.toNat = 12 || c = '\r' ||
  c.toNat = 0xa0 || c.toNat = 0x1680 ||
  (0x2000 ≤ c.toNat && c.toNat ≤ 0x200a) ||
  c.toNat = 0x2028 || c.toNat = 0x2029 || c.toNat = 0x202f ||
  c.toNat = 0x205f || c.toNat = 0x3000 || c.toNat = 0xfeff

/-- JavaScript line terminators; the regex `.` does not match these. -/
def isLineTerm (c : Char) : Bool :=
  c = '\n' || c = '\r' || c.toNat = 0x2028 || c.toNat = 0x2029

/-- Model of `String.prototype.toLowerCase`, modelled on the ASCII letters (the only
case mappings the system's inputs exercise). -/
def toLowerChar (c : Char) : Char :=
  if h : 65 ≤ c.toNat ∧ c.toNat ≤ 90 then
    ⟨UInt32.ofNat' (c.toNat + 32) (Char.isValidUInt32 _ (Or.inl (by omega))),
     Char.isValidChar_of_isValidCharNat _ (Or.inl (by omega))⟩
  else c

/-- The character class kept by the step `replace(/[^\p{L}\p{N}\s]/gu, " ")`:
Unicode letters and numbers (modelled as ASCII alphanumerics plus all
non-ASCII code points) and JavaScript whitespace. -/
def keepChar (c : Char) : Bool :=
  (65 ≤ c.toNat && c.toNat ≤ 90) || (97 ≤ c.toNat && c.toNat ≤ 122) ||
  (48 ≤ c.toNat && c.toNat ≤ 57) || isJsSpace c || 128 ≤ c.toNat

/-- Step (4), `replace(/[^\p{L}\p{N}\s]/gu, " ")`: every character outside the kept
class becomes a single space. -/
def punctPass (l : List Char) : List Char :=
  l.map (fun c => if keepChar c then c else ' ')

/-- Index of the first closing bracket reachable by the non-greedy `.*?`
(which cannot cross a line terminator), if any. -/
def findClose (close : Char) : List Char → Option Nat
  | [] => none
  | c :: cs =>
    if c = close then some 0
    else if isLineTerm c then none
    else (findClose close cs).map (· + 1)

/-- Closing partner of a bracket-opening character. -/
def openClose (c : Char) : Option Char :=
  if c = '(' then some ')'
  else if c = '[' then some ']'
  else if c = '{' then some '}'
  else none

/-- Global replace of `/\(.*?\)|\[.*?\]|\{.*?\}/g` by a single space.  The
first argument counts characters still to be skipped because they belonged
to the previous match. -/
def brGo : Nat → List Char → List Char
  | _, [] => []
  | k + 1, _ :: cs => brGo k cs
  | 0, c :: cs =>
    match openClose c with
    | some cl =>
      match findClose cl cs with
      | some k => ' ' :: brGo (k + 1) cs
      | none => c :: brGo 0 cs
    | none => c :: brGo 0 cs

/-- Step (1) of `normalize`: remove bracketed segments. -/
def bracketPass (l : List Char) : List Char := brGo 0 l

/-- One regex-alternative atom: a literal character (matched
case-insensitively), an optional literal character, an optional literal
string, or `\s*`. -/
inductive Atom
  | lit (c : Char)
  | optChar (c : Char)
  | optStr (s : List Char)
  | wsStar

/-- Case-insensitive literal prefix test: does the lower-case word `s`
match the start of `l`? -/
def ciLeads : List Char → List Char → Bool
  | [], _ => true
  | _ :: _, [] => false
  | p :: ps, c :: cs => toLowerChar c = p && ciLeads ps cs

/-- Does the alternative `pat` (lower-case literals) match a prefix of `l`
case-insensitively?  Returns the length of the match.  Optional atoms fall
back to the empty match when the rest fails, exactly as the backtracking
regex engine does; `\s*` is greedy, which is exact here because in every
pattern used the atom after `\s*` is a non-space literal. -/
def matchAtoms : List Atom → List Char → Option Nat
  | [], _ => some 0
  | .lit p :: rest, l =>
    match l with
    | [] => none
    | c :: cs => if toLowerChar c = p then (matchAtoms rest cs).map (· + 1) else none
  | .optChar p :: rest, l =>
    (match l with
     | [] => none
     | c :: cs => if toLowerChar c = p then (matchAtoms rest cs).map (· + 1) else none) <|>
    matchAtoms rest l
  | .optStr s :: rest, l =>
    (if ciLeads s l then (matchAtoms rest (l.drop s.length)).map (· + s.length) else none) <|>
    matchAtoms rest l
  | .wsStar :: rest, l =>
    let k := (l.takeWhile isJsSpace).length
    (matchAtoms rest (l.drop k)).map (· + k)

/-- Lift a literal word to a list of `lit` atoms. -/
def lits (s : List Char) : List Atom := s.map .lit

/-- Try a list of regex alternatives in order at the current position. -/
def tryAlts : List (List Atom) → List Char → Option Nat
  | [], _ => none
  | alt :: rest, l => matchAtoms alt l <|> tryAlts rest l

/-- Global replace of an alternation of word patterns by a single space.
Every alternative starts with a literal, so a successful match consumes at
least one character; the recursion therefore skips `k - 1` characters of the
tail after a match of length `k`. -/
def junkGo (alts : List (List Atom)) : Nat → List Char → List Char
  | _, [] => []
  | k + 1, _ :: cs => junkGo alts k cs
  | 0, c :: cs =>
    match tryAlts alts (c :: cs) with
    | some k => ' ' :: junkGo alts (k - 1) cs
    | none => c :: junkGo alts 0 cs

/-- Alternatives of `/official\s*video|lyrics?|audio|remaster(ed)?|hd|hq|mv/gi`. -/
def junkAlts1 : List (List Atom) :=
  [ lits "official".data ++ [.wsStar] ++ lits "video".data,
    lits "lyric".data ++ [.optChar 's'],
    lits "audio".data,
    lits "remaster".data ++ [.optStr "ed".data],
    lits "hd".data,
    lits "hq".data,
    lits "mv".data ]

/-- Alternatives of `/feat\.?|ft\.?|prod\.?|produced\s*by/gi`. -/
def junkAlts2 : List (List Atom) :=
  [ lits "feat".data ++ [.optChar '.'],
    lits "ft".data ++ [.optChar '.'],
    lits "prod".data ++ [.optChar '.'],
    lits "produced".data ++ [.wsStar] ++ lits "by".data ]

/-- Step (2a) of `normalize`. -/
def junkPass1 (l : List Char) : List Char := junkGo junkAlts1 0 l

/-- Step (2b) of `normalize`. -/
def junkPass2 (l : List Char) : List Char := junkGo junkAlts2 0 l

mutual
/-- Whitespace-collapse scanner: copies non-space characters; a maximal
whitespace run becomes one `' '` when more input follows, nothing at the
end. -/
def ct2 : List Char → List Char
  | [] => []
  | c :: cs => if isJsSpace c then ct2sp cs else c :: ct2 cs
/-- State of `ct2` inside a whitespace run. -/
def ct2sp : List Char → List Char
  | [] => []
  | c :: cs => if isJsSpace c then ct2sp cs else ' ' :: c :: ct2 cs
end

/-- Model of `replace(/\s+/g, " ").trim()`: collapse whitespace runs to single spaces
and trim both ends. -/
def collapseTrim (l : List Char) : List Char := ct2 (l.dropWhile isJsSpace)

/-- Whitespace-normal lists: every whitespace character is a single `' '`
followed by a non-space character (no runs, no trailing whitespace).  The
outputs of `ct2` satisfy this, and `ct2` fixes such lists. -/
def wsOk : List Char → Bool
  | [] => true
  | [c] => !isJsSpace c
  | c :: d :: rest =>
    (if isJsSpace c then (c == ' ') && !isJsSpace d else true) && wsOk (d :: rest)

/-- The `normalize` function of the matcher module: brackets → noise words → lowercase →
punctuation to spaces → collapse/trim. -/
def normalize (l : List Char) : List Char :=
  collapseTrim (punctPass ((junkPass2 (junkPass1 (bracketPass l))).map toLowerChar))

/-- Does `needle` occur at the very start of `l`? -/
def leadsWith : List Char → List Char → Bool
  | [], _ => true
  | _ :: _, [] => false
  | n :: ns, c :: cs => n = c && leadsWith ns cs

/-- Model of `hay.includes(needle)` on JavaScript strings. -/
def incl (hay needle : List Char) : Bool :=
  match hay with
  | [] => needle.isEmpty
  | _ :: cs => leadsWith needle hay || incl cs needle

/-- Model of `String.prototype.trim` (both ends, JavaScript whitespace). -/
def jsTrim (l : List Char) : List Char :=
  ((l.dropWhile isJsSpace).reverse.dropWhile isJsSpace).reverse

/-- Model of `hay.replace(needle, "")` with a plain-string pattern: remove the first
occurrence of `needle`, if any. -/
def removeFirst (needle : List Char) : List Char → List Char
  | [] => []
  | c :: cs =>
    if leadsWith needle (c :: cs) then (c :: cs).drop needle.length
    else c :: removeFirst needle cs

/-- The `string-similarity` package's `compareTwoStrings` (Dice coefficient on character
bigrams, whitespace removed, multiset intersection), valued in ℚ. -/
def bigrams (l : List Char) : List (Char × Char) := l.zip l.tail

/-- Multiset intersection size of two bigram lists, exactly as the counting
loop of `compareTwoStrings` computes it. -/
def bigramInter : List (Char × Char) → List (Char × Char) → Nat
  | _, [] => 0
  | xs, b :: bs =>
    if b ∈ xs then 1 + bigramInter (xs.erase b) bs else bigramInter xs bs

def diceScore (a b : List Char) : ℚ :=
  let f := a.filter (fun c => !isJsSpace c)
  let s := b.filter (fun c => !isJsSpace c)
  if f = s then 1
  else if f.length < 2 ∨ s.length < 2 then 0
  else (2 * (bigramInter (bigrams f) (bigrams s) : ℚ)) / ((f.length + s.length - 2 : ℕ) : ℚ)

/-- Tokens: `g.split(" ")` then `filter(x => x.length > 2)`. -/
def tokensOf (l : List Char) : List (List Char) :=
  (l.splitOn ' ').filter (fun w => 2 < w.length)

/-- Token-overlap test of `isGuessCorrect` (sets, i.e. dedup'd tokens;
`overlap/|s1| ≥ 0.7 || overlap/|s2| ≥ 0.7`). -/
def hasHighOverlap (s1 s2 : List (List Char)) : Bool :=
  if s1.isEmpty || s2.isEmpty then false
  else
    let ov := (s1.filter (fun x => x ∈ s2)).length
    decide (7 * s1.length ≤ 10 * ov) || decide (7 * s2.length ≤ 10 * ov)

/-- Model of `isGuessCorrect(guess, title, artist)` — the unified text-mode match. -/
def isGuessCorrect (guess title artist : List Char) : Bool :=
  let g := normalize guess
  let t := normalize title
  let a := normalize artist
  if g.isEmpty then false
  else if !t.isEmpty && (incl g t || incl t g) then true
  else if !a.isEmpty && (incl g a || incl a g) then true
  else
    let gT := (tokensOf g).dedup
    let tT := (tokensOf t).dedup
    let aT := (tokensOf a).dedup
    if hasHighOverlap gT tT then true
    else if hasHighOverlap gT aT then true
    else
      let fuzzy := max (if !t.isEmpty then diceScore g t else 0)
                       (if !a.isEmpty then diceScore g a else 0)
      decide ((13 : ℚ) / 20 ≤ fuzzy)

/-- The inner `isMatch(g, target)` of `getDetailedMatch` (token arrays are
not dedup'd there; Dice threshold 0.7). -/
def dmIsMatch (g target : List Char) : Bool :=
  if target.isEmpty then false
  else if g = target then true
  else if incl g target || incl target g then true
  else
    let gTok := tokensOf g
    let tTok := tokensOf target
    if !gTok.isEmpty && !tTok.isEmpty &&
        (decide (7 * gTok.length ≤ 10 * ((gTok.filter (fun v => v ∈ tTok)).length)) ||
         decide (7 * tTok.length ≤ 10 * ((gTok.filter (fun v => v ∈ tTok)).length))) then
      true
    else decide ((7 : ℚ) / 10 ≤ diceScore g target)

/-- The inner `check(guess, primary, secondary, backup)` of
`getDetailedMatch`; the three targets are re-normalised, as in the source. -/
def dmCheck (guess p s b : List Char) : Bool :=
  if guess.isEmpty then false
  else
    dmIsMatch guess (normalize p) || dmIsMatch guess (normalize s) ||
    dmIsMatch guess (normalize b)

/-- Result of `getDetailedMatch`. -/
structure DM where
  artistCorrect : Bool
  titleCorrect : Bool
deriving DecidableEq, Repr

/-- Model of `getDetailedMatch(guessArtist, guessTitle, targetArtist, targetTitle)`. -/
def getDetailedMatch (gA gT tA tT : List Char) : DM :=
  let normGA := normalize gA
  let normGT := normalize gT
  let normA := normalize tA
  let normT := normalize tT
  let cleanT :=
    if !normA.isEmpty && incl normT normA then jsTrim (removeFirst normA normT)
    else normT
  { artistCorrect := dmCheck normGA normA normT tT
    titleCorrect := dmCheck normGT normT cleanT tA }

/-- String-level wrappers. -/
def normalizeS (s : String) : String := ⟨normalize s.data⟩

def isGuessCorrectS (guess title artist : String) : Bool :=
  isGuessCorrect guess.data title.data artist.data

def getDetailedMatchS (gA gT tA tT : String) : DM :=
  getDetailedMatch gA.data gT.data tA.data tT.data

/-!
The per-room game engine (src/unnamed/part_004, the server's socket
handlers).  A room is modelled as the server's in-memory room object;
`Map`s keyed by socket id are association lists in insertion order
(JavaScript `Map.set` updates an existing key in place and appends a new
one, `Map.delete` removes it).  Broadcasts are returned as an event list;
Firestore writes and leaderboard updates are external effects outside the
room state.  Token verification is external: the `joinRoom` operation
carries the verified user id (`none` = unauthenticated).  The uniform
random shuffle of `startGame` is modelled by quantifying over the order of
the track list argument.
-/

/-- A member, as stored in `room.users`. -/
structure Member where
  name : String
  score : Int
  uid : Option String
deriving DecidableEq, Repr

/-- An entry of the buzzer queue. -/
structure QEntry where
  id : String
  name : String
  ts : Int
deriving DecidableEq, Repr

/-- The buzzer structure created by the first buzz of a round. -/
structure BuzzerSt where
  tsFirst : Int
  currentId : String
  currentName : String
  queue : List QEntry
deriving DecidableEq, Repr

/-- A track of the round pool (the fields the engine reads). -/
structure Track where
  title : String
  artist : String
deriving DecidableEq, Repr

/-- The `room.currentRound` object. -/
structure Round where
  startedAt : Int
  answerTitle : String
  answerArtist : String
  solved : Bool
  paused : Bool
  buzzer : Option BuzzerSt
deriving DecidableEq, Repr

/-- A room.  `hostId = ""` models the JavaScript `null` host connection;
`players` is the score table restored from a Firestore snapshot (empty for
fresh rooms). -/
structure Room where
  code : String
  hostId : String
  hostUid : String
  users : List (String × Member)
  players : List (String × Int)
  mode : Option String
  gameType : String
  tracks : List Track
  answersKnown : Bool
  roundCount : Nat
  currentRound : Option Round
  skipVotes : List String
deriving DecidableEq, Repr

/-- Events the handlers broadcast to the room. -/
inductive Ev
  | chat (text : String)
  | gameStarted (mode gameType : String)
  | pausePlayback
  | resumePlayback
  | buzzed (id name : String) (ts : Int)
  | queueUpdated (queue : List String)
  | buzzCleared
  | roundEnd (winner : Option String) (title artist : String) (elapsedMs : Int)
      (skipped : Bool)
deriving DecidableEq, Repr

/-- The acknowledgement sent back to the caller: `ok`, an explicit
`{ok: false}` rejection, or an `{error}` message. -/
inductive Res
  | ok
  | rejected
  | err (msg : String)
deriving DecidableEq, Repr

/-- Model of `Map.get`. -/
def lookupA (l : List (String × Member)) (k : String) : Option Member :=
  (l.find? (fun p => p.1 = k)).map (fun p => p.2)

/-- Model of `Map.set`: update an existing key in place, else append. -/
def setA : List (String × Member) → String → Member → List (String × Member)
  | [], k, v => [(k, v)]
  | (k', v') :: rest, k, v =>
    if k' = k then (k, v) :: rest else (k', v') :: setA rest k v

/-- Model of `Map.delete`. -/
def eraseA : List (String × Member) → String → List (String × Member)
  | [], _ => []
  | (k', v') :: rest, k => if k' = k then rest else (k', v') :: eraseA rest k

/-- The engine operations the claims quantify over, with the clock values
the handlers read passed explicitly. -/
inductive Op
  | joinRoom (sid name : String) (uid : Option String)
  | disconnect (sid : String)
  | startGame (sid mode : String) (tracks : List Track) (gameType : Option String)
  | guess (sid guessText : String) (now : Int)
  | voteSkip (sid : String) (now : Int)
  | buzz (sid : String) (now : Int)
  | passBuzzer (sid : String)
  | awardPoints (sid playerName : String) (points : Option Int)
  | deductPoints (sid playerName : String) (points : Option Int)
  | endRoundManual (sid : String) (now : Int)
  | pauseRound (sid : String)
  | resumeRound (sid : String)
deriving DecidableEq, Repr

/-- Model of `Number(points) || 10`: a `0`, `NaN`, missing or non-numeric `points`
argument (all modelled as `none`) falls back to `10`. -/
def coercePts (v : Option Int) : Int :=
  match v with
  | none => 10
  | some n => if n = 0 then 10 else n

/-- Fresh member of `joinRoom`: `name?.trim() || "Gracz"`, score restored
from the snapshot's player table when the user id is known there. -/
def joinFresh (room : Room) (sid name : String) (uid : Option String) :
    Room × List Ev × Res :=
  let t := jsTrim name.data
  let nm : String := if t.isEmpty then "Gracz" else ⟨t⟩
  let score0 : Int :=
    match uid with
    | some u =>
      match room.players.find? (fun p => p.1 = u) with
      | some p => p.2
      | none => 0
    | none => 0
  ({ room with users := setA room.users sid ⟨nm, score0, uid⟩ },
   [Ev.chat (nm ++ " joined the room")], Res.ok)

/-- The `joinRoom` handler (host reattach, first-login host-uid adoption,
migration of an existing member of the same user id, else a fresh member). -/
def applyJoin (room : Room) (sid name : String) (uid : Option String) :
    Room × List Ev × Res :=
  match uid with
  | some u =>
    let room1 :=
      if room.hostUid = u then { room with hostId := sid }
      else if room.hostUid = "" ∧ room.hostId = sid then { room with hostUid := u }
      else room
    match room1.users.find? (fun p => p.2.uid = some u) with
    | some entry =>
      ({ room1 with users := setA (eraseA room1.users entry.1) sid entry.2 },
       [], Res.ok)
    | none => joinFresh room1 sid name (some u)
  | none => joinFresh room sid name none

/-- The host-transfer step at the end of `disconnect`: if the host left,
the first remaining member inherits `hostId` (`""` models `null`). -/
def hostTransfer (sid : String) (r : Room) : Room :=
  if r.hostId = sid then
    { r with hostId := ((r.users.head?.map (fun p => p.1)).getD "") }
  else r

/-- The `disconnect` handler: remove the member, emit the "left" chat, tidy
the buzzer, transfer the host.  When the leaving member holds the buzzer
and the queue is empty the source sets `r.buzzer = null` and then
dereferences `r.buzzer.queue`, throwing a `TypeError`; the host transfer
below that line is skipped in that case. -/
def applyDisconnect (room : Room) (sid : String) : Room × List Ev × Res :=
  match lookupA room.users sid with
  | none => (room, [], Res.ok)
  | some user =>
    let users1 := eraseA room.users sid
    let ev0 := [Ev.chat (user.name ++ " left the room")]
    match room.currentRound with
    | some r =>
      match r.buzzer with
      | some b =>
        if b.currentId = sid then
          match b.queue with
          | next :: rest =>
            let q2 := rest.filter (fun p => p.id ≠ sid)
            let b' := { b with currentId := next.id, currentName := next.name,
                               queue := q2 }
            let evq := if rest.length ≠ q2.length then
                [Ev.queueUpdated (q2.map (fun p => p.name))] else []
            let room1 := { room with users := users1, currentRound := some { r with buzzer := some b' } }
            (hostTransfer sid room1, ev0 ++ [Ev.buzzed next.id next.name b.tsFirst] ++ evq, Res.ok)
          | [] =>
            let room1 := { room with users := users1, currentRound := some { r with buzzer := none } }
            (room1, ev0 ++ [Ev.buzzCleared], Res.ok)
        else
          let q2 := b.queue.filter (fun p => p.id ≠ sid)
          let evq := if b.queue.length ≠ q2.length then
              [Ev.queueUpdated (q2.map (fun p => p.name))] else []
          let b' := { b with queue := q2 }
          let room1 := { room with users := users1, currentRound := some { r with buzzer := some b' } }
          (hostTransfer sid room1, ev0 ++ evq, Res.ok)
      | none => (hostTransfer sid { room with users := users1 }, ev0, Res.ok)
    | none => (hostTransfer sid { room with users := users1 }, ev0, Res.ok)

/-- The `startGame` handler.  The source performs no host check here (its
comment says "host only"); it requires only a non-empty track list. -/
def applyStartGame (room : Room) (_sid mode : String) (tracks : List Track)
    (gameType : Option String) : Room × List Ev × Res :=
  if tracks.length < 1 then
    (room, [], Res.err "Playlist must have at least 1 track.")
  else
    let gt := match gameType with
      | some g => if g = "" then "text" else g
      | none => "text"
    let room1 := { room with mode := some mode, gameType := gt, tracks := tracks, answersKnown := true, currentRound := none, roundCount := 0, skipVotes := [] }
    (room1, [Ev.gameStarted mode gt], Res.ok)

/-- Points awarded to a text-mode guess: the detailed match is evaluated
with an empty `guessArtist`, 10 for artist+title, 5 for title only. -/
def textPoints (guessText artist title : String) : Int :=
  let m := getDetailedMatch [] guessText.data artist.data title.data
  if m.artistCorrect && m.titleCorrect then 10
  else if m.titleCorrect then 5
  else 0

/-- The text-mode `guess` handler. -/
def applyGuess (room : Room) (sid guessText : String) (now : Int) :
    Room × List Ev × Res :=
  match room.currentRound with
  | none => (room, [], Res.err "Round is not active.")
  | some r =>
    if r.solved then (room, [], Res.err "Round is already finished.")
    else if room.gameType = "buzzer" then (room, [], Res.err "Use buzzer mode flow.")
    else
      let pts := textPoints guessText r.answerArtist r.answerTitle
      if pts = 0 then (room, [], Res.ok)
      else
        match room.users.find? (fun p => p.1 = sid) with
        | some fnd =>
          let m' := { fnd.2 with score := fnd.2.score + pts }
          ({ room with users := setA room.users fnd.1 m', currentRound := some { r with solved := true } },
           [Ev.roundEnd (some fnd.2.name) r.answerTitle r.answerArtist (now - r.startedAt) false],
           Res.ok)
        | none =>
          ({ room with currentRound := some { r with solved := true } },
           [Ev.roundEnd (some "Ktoś") r.answerTitle r.answerArtist (now - r.startedAt) false],
           Res.ok)

/-- Model of `Set.add` on the vote set (modelled as a duplicate-free list). -/
def addVote (votes : List String) (sid : String) : List String :=
  if sid ∈ votes then votes else votes ++ [sid]

/-- The `voteSkip` handler: any connection's vote is added to the set; the
round ends as skipped when `|skipVotes| > |users| / 2` (the integer
comparison `2·|skipVotes| > |users|` is exact for the source's float
division). -/
def applyVoteSkip (room : Room) (sid : String) (now : Int) : Room × List Ev × Res :=
  match room.currentRound with
  | none => (room, [], Res.err "Cannot skip at this moment.")
  | some r =>
    if r.solved then (room, [], Res.err "Cannot skip at this moment.")
    else
      let votes := addVote room.skipVotes sid
      if 2 * votes.length > room.users.length then
        ({ room with skipVotes := votes, currentRound := some { r with solved := true } },
         [Ev.chat "Track skipped by majority vote!",
          Ev.roundEnd none r.answerTitle r.answerArtist (now - r.startedAt) true],
         Res.ok)
      else ({ room with skipVotes := votes }, [], Res.ok)

/-- The `buzz` handler: the first buzz creates the buzzer and pauses
playback; later buzzes append to the queue unless the caller already holds
the buzzer or is already queued, in which case nothing changes. -/
def applyBuzz (room : Room) (sid : String) (now : Int) : Room × List Ev × Res :=
  match room.currentRound with
  | none => (room, [], Res.err "Round is not active.")
  | some r =>
    if room.gameType ≠ "buzzer" then (room, [], Res.err "Not in buzzer mode.")
    else
      match lookupA room.users sid with
      | none => (room, [], Res.err "Player not in room.")
      | some player =>
        match r.buzzer with
        | none =>
          let b : BuzzerSt := ⟨now, sid, player.name, []⟩
          ({ room with currentRound := some { r with paused := true, buzzer := some b } },
           [Ev.pausePlayback, Ev.buzzed sid player.name now, Ev.queueUpdated []],
           Res.ok)
        | some b =>
          if sid = b.currentId || b.queue.any (fun p => p.id = sid) then
            (room, [], Res.rejected)
          else
            let q' := b.queue ++ [⟨sid, player.name, now⟩]
            ({ room with currentRound := some { r with buzzer := some { b with queue := q' } } },
             [Ev.queueUpdated (q'.map (fun p => p.name))], Res.ok)

/-- The `passBuzzer` handler (host only, buzzer mode): rotate the queue
head into the holder and keep playback paused, or clear the buzzer and
resume playback when the queue is empty. -/
def applyPassBuzzer (room : Room) (sid : String) : Room × List Ev × Res :=
  if room.hostId ≠ sid then (room, [], Res.err "Only the host can pass the buzzer.")
  else if room.gameType ≠ "buzzer" then (room, [], Res.err "Not in buzzer mode.")
  else
    match room.currentRound with
    | none => (room, [], Res.err "No active buzzer.")
    | some r =>
      match r.buzzer with
      | none => (room, [], Res.err "No active buzzer.")
      | some b =>
        match b.queue with
        | next :: rest =>
          let b' := { b with currentId := next.id, currentName := next.name, queue := rest }
          ({ room with currentRound := some { r with paused := true, buzzer := some b' } },
           [Ev.buzzed next.id next.name b.tsFirst,
            Ev.queueUpdated (rest.map (fun p => p.name)), Ev.pausePlayback],
           Res.ok)
        | [] =>
          ({ room with currentRound := some { r with paused := false, buzzer := none } },
           [Ev.buzzCleared, Ev.resumePlayback], Res.ok)

/-- The `awardPoints` handler (host only, buzzer mode): add the coerced
amount to the first member of the given display name. -/
def applyAward (room : Room) (sid playerName : String) (points : Option Int) :
    Room × List Ev × Res :=
  if room.hostId ≠ sid then (room, [], Res.err "Only the host can award points.")
  else if room.gameType ≠ "buzzer" then (room, [], Res.err "Not in buzzer mode.")
  else
    match room.users.find? (fun p => p.2.name = playerName) with
    | none => (room, [], Res.err "Player not found.")
    | some entry =>
      let pts := coercePts points
      let m' := { entry.2 with score := entry.2.score + pts }
      ({ room with users := setA room.users entry.1 m' }, [], Res.ok)

/-- The `deductPoints` handler (host only, buzzer mode): subtract the
coerced amount, clamping the score at zero. -/
def applyDeduct (room : Room) (sid playerName : String) (points : Option Int) :
    Room × List Ev × Res :=
  if room.hostId ≠ sid then (room, [], Res.err "Only the host can deduct points.")
  else if room.gameType ≠ "buzzer" then (room, [], Res.err "Not in buzzer mode.")
  else
    match room.users.find? (fun p => p.2.name = playerName) with
    | none => (room, [], Res.err "Player not found.")
    | some entry =>
      let pts := coercePts points
      let s := entry.2.score - pts
      let m' := { entry.2 with score := if s < 0 then 0 else s }
      ({ room with users := setA room.users entry.1 m' }, [], Res.ok)

/-- The `endRoundManual` handler (host only, buzzer mode): elapsed time is
`tsFirst - startedAt` when `buzzer?.tsFirst` is truthy, else
`now - startedAt`; the winner is `buzzer?.currentName || null`. -/
def applyEndRoundManual (room : Room) (sid : String) (now : Int) :
    Room × List Ev × Res :=
  match room.currentRound with
  | none => (room, [], Res.err "Round is not active.")
  | some r =>
    if room.hostId ≠ sid then (room, [], Res.err "Only the host can end the round.")
    else if room.gameType ≠ "buzzer" then (room, [], Res.err "Not in buzzer mode.")
    else
      let elapsed : Int := match r.buzzer with
        | some b => if b.tsFirst ≠ 0 then b.tsFirst - r.startedAt else now - r.startedAt
        | none => now - r.startedAt
      let winner : Option String := match r.buzzer with
        | some b => if b.currentName = "" then none else some b.currentName
        | none => none
      ({ room with currentRound := some { r with solved := true } },
       [Ev.roundEnd winner r.answerTitle r.answerArtist elapsed false], Res.ok)

/-- The `pauseRound` handler (host only). -/
def applyPauseRound (room : Room) (sid : String) : Room × List Ev × Res :=
  match room.currentRound with
  | none => (room, [], Res.err "Round is not active.")
  | some r =>
    if room.hostId ≠ sid then (room, [], Res.err "Only the host can pause the round.")
    else ({ room with currentRound := some { r with paused := true } },
          [Ev.pausePlayback], Res.ok)

/-- The `resumeRound` handler (host only). -/
def applyResumeRound (room : Room) (sid : String) : Room × List Ev × Res :=
  match room.currentRound with
  | none => (room, [], Res.err "Round is not active.")
  | some r =>
    if room.hostId ≠ sid then (room, [], Res.err "Only the host can resume the round.")
    else ({ room with currentRound := some { r with paused := false } },
          [Ev.resumePlayback], Res.ok)

/-- Dispatch of an operation to its handler. -/
def applyOp (room : Room) : Op → Room × List Ev × Res
  | .joinRoom sid name uid => applyJoin room sid name uid
  | .disconnect sid => applyDisconnect room sid
  | .startGame sid mode tracks gameType => applyStartGame room sid mode tracks gameType
  | .guess sid text now => applyGuess room sid text now
  | .voteSkip sid now => applyVoteSkip room sid now
  | .buzz sid now => applyBuzz room sid now
  | .passBuzzer sid => applyPassBuzzer room sid
  | .awardPoints sid pn v => applyAward room sid pn v
  | .deductPoints sid pn v => applyDeduct room sid pn v
  | .endRoundManual sid now => applyEndRoundManual room sid now
  | .pauseRound sid => applyPauseRound room sid
  | .resumeRound sid => applyResumeRound room sid

/-- Run a history of operations. -/
def runOps (room : Room) : List Op → Room
  | [] => room
  | op :: ops => runOps (applyOp room op).1 ops

/-- Run a history and collect every event broadcast along the way. -/
def runEvs (room : Room) : List Op → Room × List Ev
  | [] => (room, [])
  | op :: ops =>
    let out := applyOp room op
    let rest := runEvs out.1 ops
    (rest.1, out.2.1 ++ rest.2)

/-- Score of the first member with a given display name (the member
`awardPoints`/`deductPoints` resolve). -/
def scoreOf (room : Room) (name : String) : Option Int :=
  (room.users.find? (fun p => p.2.name = name)).map (fun p => p.2.score)

/-!  Concrete rooms and histories used by the scenario theorems and
counterexamples below. -/

/-- The spec's Text-solve scenario, mid-round: room `ABC123`, Alice (host)
and Bob, the single track committed as the current round. -/
def c1Room : Room :=
  ⟨"ABC123", "a", "",
   [("a", ⟨"Alice", 0, none⟩), ("b", ⟨"Bob", 0, none⟩)], [],
   some "spotify", "text", [⟨"Deszcz na betonie", "Taco Hemingway"⟩],
   true, 1, some ⟨1000, "Deszcz na betonie", "Taco Hemingway", false, false, none⟩, []⟩

/-- Bob's guess of the Text-solve scenario. -/
def c1Out : Room × List Ev × Res :=
  applyOp c1Room (Op.guess "b" "Taco Hemingway Deszcz na betonie" 3000)

/-- An empty fresh room whose host connection is `"h"`. -/
def c2Room : Room :=
  ⟨"R", "h", "", [], [], none, "text", [], false, 0, none, []⟩

/-- History refuting non-negativity: Alice joins, the game starts in buzzer
mode, and the host awards `-20` points. -/
def c2CexRoom : Room :=
  runOps c2Room
    [Op.joinRoom "h" "Alice" none,
     Op.startGame "h" "spotify" [⟨"T", "A"⟩] (some "buzzer"),
     Op.awardPoints "h" "Alice" (some (-20))]

/-- Three members `a b c` (host `c`), a text round in progress. -/
def c3Room : Room :=
  ⟨"R", "c", "",
   [("a", ⟨"A", 0, none⟩), ("b", ⟨"B", 0, none⟩), ("c", ⟨"C", 0, none⟩)], [],
   some "spotify", "text", [], true, 1,
   some ⟨1000, "T", "X", false, false, none⟩, []⟩

/-- Member `a` votes to skip, then disconnects; the room before `b`'s vote. -/
def c3Mid : Room := runOps c3Room [Op.voteSkip "a" 2000, Op.disconnect "a"]

/-- Member `b`'s vote, which ends the round although only one current member has
voted. -/
def c3Out : Room × List Ev × Res := applyOp c3Mid (Op.voteSkip "b" 3000)

/-- Buzzer-mode room, host `h` (Alice) plus Bob, round started at 1000. -/
def c5Room : Room :=
  ⟨"R", "h", "",
   [("h", ⟨"Alice", 0, none⟩), ("b", ⟨"Bob", 0, none⟩)], [],
   some "spotify", "buzzer", [], true, 1,
   some ⟨1000, "T", "X", false, false, none⟩, []⟩

/-- Bob buzzes at 1100, the host passes the buzzer with an empty queue
(clearing it), then ends the round at 5000. -/
def c5Run : Room × List Ev :=
  runEvs c5Room [Op.buzz "b" 1100, Op.passBuzzer "h", Op.endRoundManual "h" 5000]

/-- Room before `startGame`: host connection `h`, members Alice and Bob,
no game configured. -/
def c6Room : Room :=
  ⟨"R", "h", "", [("h", ⟨"Alice", 0, none⟩), ("b", ⟨"Bob", 0, none⟩)], [],
   none, "text", [], false, 0, none, []⟩

/-- Non-host `b` calls `startGame`. -/
def c6Out : Room × List Ev × Res :=
  applyOp c6Room (Op.startGame "b" "spotify" [⟨"T", "A"⟩] (some "buzzer"))

/-- Buzzer-mode room with Bob holding the buzzer and Carol queued, used to
instantiate the buzzer theorems. -/
def c7Room : Room :=
  ⟨"R", "h", "",
   [("h", ⟨"Alice", 0, none⟩), ("b", ⟨"Bob", 0, none⟩), ("c", ⟨"Carol", 0, none⟩)], [],
   some "spotify", "buzzer", [], true, 1,
   some ⟨1000, "T", "X", false, true, some ⟨1100, "b", "Bob", [⟨"c", "Carol", 1250⟩]⟩⟩, []⟩

/-- The same room with an empty buzzer queue. -/
def c7RoomEmptyQ : Room :=
  ⟨"R", "h", "",
   [("h", ⟨"Alice", 0, none⟩), ("b", ⟨"Bob", 0, none⟩)], [],
   some "spotify", "buzzer", [], true, 1,
   some ⟨1000, "T", "X", false, true, some ⟨1100, "b", "Bob", []⟩⟩, []⟩

/-- All scores in the room (live members and the snapshot player table) are
non-negative. -/
def scoresOk (room : Room) : Prop :=
  (∀ p ∈ room.users, 0 ≤ p.2.score) ∧ (∀ q ∈ room.players, 0 ≤ q.2)

/-- An operation is award-safe when any `awardPoints` amount it carries
coerces to a non-negative value. -/
def awardSafe : Op → Prop
  | Op.awardPoints _ _ v => 0 ≤ coercePts v
  | _ => True

/-- All connection handles appearing in a buzzer: the holder followed by
the queue. -/
def buzzIds (b : BuzzerSt) : List String :=
  b.currentId :: b.queue.map (fun p => p.id)

/-- The buzzer of the current round, if any. -/
def buzzOf (room : Room) : Option BuzzerSt :=
  match room.currentRound with
  | some r => r.buzzer
  | none => none

/-- Buzzer uniqueness: no connection handle appears more than once across
holder and queue. -/
def buzzInv (room : Room) : Prop :=
  match buzzOf room with
  | some b => (buzzIds b).Nodup
  | none => True

end JTM

namespace JTM

/-!  Theorems.  -/

/-- Claim C1: in text mode a guess is scored through `getDetailedMatch`
with an empty `guessArtist`; since the detailed check returns false for an
empty guess side, `artistCorrect` is identically false and the 10-point
branch is unreachable.  In the spec's Text-solve scenario Bob's guess
"Taco Hemingway Deszcz na betonie" therefore scores 5, not the claimed 10;
the round still ends with winner "Bob" and the revealed answer. -/
theorem c1_text_mode_ten_points_unreachable :
    (∀ g a t : List Char, (getDetailedMatch [] g a t).artistCorrect = false) ∧
    textPoints "Taco Hemingway Deszcz na betonie" "Taco Hemingway" "Deszcz na betonie" = 5 ∧
    c1Out.2.1 = [Ev.roundEnd (some "Bob") "Deszcz na betonie" "Taco Hemingway" 2000 false] ∧
    c1Out.2.2 = Res.ok ∧
    scoreOf c1Out.1 "Bob" = some 5 := by
  refine ⟨fun g a t => rfl, ?_, ?_, ?_, ?_⟩ <;> decide

/-- Claim C6: `startGame` performs no host check.  In `c6Room` the host
connection is `"h"`, yet the call by `"b"` succeeds and mutates the room's
mode, game type, track list and `answersKnown`, instead of failing with a
permission error and leaving the room unchanged. -/
theorem c6_startGame_missing_host_check :
    c6Room.hostId = "h" ∧ ("b" : String) ≠ "h" ∧
    c6Room.answersKnown = false ∧ c6Room.gameType = "text" ∧ c6Room.mode = none ∧
    c6Out.2.2 = Res.ok ∧
    c6Out.1.answersKnown = true ∧ c6Out.1.gameType = "buzzer" ∧
    c6Out.1.mode = some "spotify" ∧ c6Out.1.tracks = [⟨"T", "A"⟩] := by
  refine ⟨rfl, ?_, rfl, rfl, rfl, rfl, rfl, rfl, rfl, rfl⟩
  decide

/-- Claim C2, counterexample: `awardPoints` accepts a negative amount
(`Number(-20) || 10 = -20`), driving Alice's score to `-20 < 0`. -/
theorem c2_counterexample :
    scoreOf c2CexRoom "Alice" = some (-20) ∧
    ¬ (∀ p ∈ c2CexRoom.users, 0 ≤ p.2.score) := by
  refine ⟨by decide, ?_⟩
  intro h
  have := h ("h", ⟨"Alice", -20, none⟩) (by decide)
  exact absurd this (by decide)

/-- Claim C3, counterexample: skip votes are not pruned on disconnect.
After `a` votes and disconnects, `b`'s vote ends the round (the stale vote
still counts: 2 votes > 2/2), although only one of the two current members
has voted, so the claimed majority-of-current-members condition fails. -/
theorem c3_counterexample :
    Ev.roundEnd none "T" "X" 2000 true ∈ c3Out.2.1 ∧
    (match c3Out.1.currentRound with
     | some r => r.solved
     | none => false) = true ∧
    c3Mid.users.length = 2 ∧
    ((c3Mid.skipVotes ++ ["b"]).filter
      (fun s => (lookupA c3Mid.users s).isSome)).length = 1 ∧
    ¬ (2 * 1 > 2) := by
  refine ⟨?_, ?_, ?_, ?_, ?_⟩ <;> decide

/-- Claim C5, counterexample: a buzz occurred (Bob's buzz at 1100 was
broadcast) but the buzzer was cleared by `passBuzzer` before
`endRoundManual`, so the emitted elapsed time is `now - startedAt = 4000`
and the winner is `null`, not `firstBuzzAt - startedAt = 100`. -/
theorem c5_counterexample :
    Ev.buzzed "b" "Bob" 1100 ∈ c5Run.2 ∧
    Ev.roundEnd none "T" "X" 4000 false ∈ c5Run.2 ∧
    (4000 : Int) ≠ 1100 - 1000 := by
  refine ⟨?_, ?_, ?_⟩ <;> decide

/-- Claim C8, counterexample: a title that normalises to the empty string
is rejected as a guess for itself — `match("???", "???", "Abba")` is false
because the normalised guess is empty. -/
theorem c8_counterexample : isGuessCorrectS "???" "???" "Abba" = false := by
  decide

/-- Claim C9, counterexample: `normalize` is not idempotent.  On
"official.video" the first pass only turns the dot into a space, producing
"official video", and a second pass removes that noise phrase entirely. -/
theorem c9_counterexample :
    normalizeS (normalizeS "official.video") ≠ normalizeS "official.video" := by
  decide

/-- Claim C7: `passBuzzer` with a non-empty queue promotes the queue head
to holder, emits `buzzed` and `queueUpdated`, broadcasts `pausePlayback`
and keeps `paused = true`; with an empty queue it clears the buzzer,
broadcasts `buzzCleared` and `resumePlayback`, and sets `paused = false`. -/
theorem c7_passBuzzer (room : Room) (sid : String) (r : Round) (b : BuzzerSt)
    (hh : room.hostId = sid) (hg : room.gameType = "buzzer")
    (hr : room.currentRound = some r) (hb : r.buzzer = some b) :
    (∀ next rest, b.queue = next :: rest →
      applyOp room (Op.passBuzzer sid) =
        ({ room with currentRound := some { r with paused := true, buzzer := some { b with currentId := next.id, currentName := next.name, queue := rest } } },
         [Ev.buzzed next.id next.name b.tsFirst,
          Ev.queueUpdated (rest.map (fun p => p.name)), Ev.pausePlayback], Res.ok)) ∧
    (b.queue = [] →
      applyOp room (Op.passBuzzer sid) =
        ({ room with currentRound := some { r with paused := false, buzzer := none } },
         [Ev.buzzCleared, Ev.resumePlayback], Res.ok)) := by
  constructor
  · intro next rest hq
    simp [applyOp, applyPassBuzzer, hh, hg, hr, hb, hq]
  · intro hq
    simp [applyOp, applyPassBuzzer, hh, hg, hr, hb, hq]

/-- Witness for `c7_passBuzzer`: both branches at concrete rooms. -/
theorem c7_passBuzzer_witness :
    applyOp c7Room (Op.passBuzzer "h") =
      ({ c7Room with currentRound := some ⟨1000, "T", "X", false, true,
          some ⟨1100, "c", "Carol", []⟩⟩ },
       [Ev.buzzed "c" "Carol" 1100, Ev.queueUpdated [], Ev.pausePlayback], Res.ok) ∧
    applyOp c7RoomEmptyQ (Op.passBuzzer "h") =
      ({ c7RoomEmptyQ with currentRound := some ⟨1000, "T", "X", false, false, none⟩ },
       [Ev.buzzCleared, Ev.resumePlayback], Res.ok) := by
  constructor
  · exact (c7_passBuzzer c7Room "h" _ _ rfl rfl rfl rfl).1 ⟨"c", "Carol", 1250⟩ [] rfl
  · exact (c7_passBuzzer c7RoomEmptyQ "h" _ _ rfl rfl rfl rfl).2 rfl

/-- Claim C5, amended: in a buzzer-mode `endRoundManual` the elapsed time
is `firstBuzzAt - startedAt` precisely when the buzzer structure is still
present (non-null, with a truthy `firstBuzzAt`) at that moment — i.e. a
buzz occurred and the buzzer was not cleared in between — and the winner is
then the holder's name; when the buzzer is absent (no buzz, or the buzzer
was cleared by `passBuzzer`/holder disconnect), the elapsed time is
`now - startedAt` and the winner is null. -/
theorem c5_amended (room : Room) (sid : String) (now : Int) (r : Round)
    (hr : room.currentRound = some r) (hh : room.hostId = sid)
    (hg : room.gameType = "buzzer") :
    (∀ b, r.buzzer = some b → b.tsFirst ≠ 0 →
      (applyOp room (Op.endRoundManual sid now)).2.1 =
        [Ev.roundEnd (if b.currentName = "" then none else some b.currentName)
          r.answerTitle r.answerArtist (b.tsFirst - r.startedAt) false]) ∧
    (r.buzzer = none →
      (applyOp room (Op.endRoundManual sid now)).2.1 =
        [Ev.roundEnd none r.answerTitle r.answerArtist (now - r.startedAt) false]) := by
  constructor
  · intro b hb ht
    simp [applyOp, applyEndRoundManual, hr, hh, hg, hb, ht]
  · intro hb
    simp [applyOp, applyEndRoundManual, hr, hh, hg, hb]

/-- Witness for `c5_amended`: with the buzzer still held (Bob, first buzz
at 1100) the round ends with elapsed 100 and winner Bob; in the
buzzer-less room the round ends with elapsed `now - startedAt`. -/
theorem c5_amended_witness :
    (applyOp c7RoomEmptyQ (Op.endRoundManual "h" 5000)).2.1 =
      [Ev.roundEnd (some "Bob") "T" "X" 100 false] ∧
    (applyOp c5Room (Op.endRoundManual "h" 5000)).2.1 =
      [Ev.roundEnd none "T" "X" 4000 false] := by
  constructor
  · have h := (c5_amended c7RoomEmptyQ "h" 5000 _ rfl rfl rfl).1
      ⟨1100, "b", "Bob", []⟩ rfl (by decide)
    simpa using h
  · exact (c5_amended c5Room "h" 5000 _ rfl rfl rfl).2 rfl

/-- Claim C3, amended: after a `voteSkip` call the round ends as skipped
(`roundEnd` with winner null and skipped = true) exactly when
`2·|skipVotes ∪ {caller}| > |members|`, where `skipVotes` is the recorded
vote set — which is never pruned on disconnect, so it may still contain
votes of members who have since left the room. -/
theorem c3_amended (room : Room) (sid : String) (now : Int) (r : Round)
    (hr : room.currentRound = some r) (hs : r.solved = false) :
    ((Ev.roundEnd none r.answerTitle r.answerArtist (now - r.startedAt) true ∈
        (applyOp room (Op.voteSkip sid now)).2.1) ↔
      2 * (addVote room.skipVotes sid).length > room.users.length) ∧
    (applyOp room (Op.voteSkip sid now)).1.skipVotes = addVote room.skipVotes sid := by
  by_cases hc : 2 * (addVote room.skipVotes sid).length > room.users.length
  · constructor
    · simp [applyOp, applyVoteSkip, hr, hs, hc]
    · simp [applyOp, applyVoteSkip, hr, hs, hc]
  · constructor
    · simp [applyOp, applyVoteSkip, hr, hs, hc]
    · simp [applyOp, applyVoteSkip, hr, hs, hc]

/-- Witness for `c3_amended`: in the three-member room, `a`'s lone vote
does not end the round (2·1 ≤ 3), and the vote set becomes `{a}`. -/
theorem c3_amended_witness :
    (¬ (Ev.roundEnd none "T" "X" 1000 true ∈
        (applyOp c3Room (Op.voteSkip "a" 2000)).2.1)) ∧
    (applyOp c3Room (Op.voteSkip "a" 2000)).1.skipVotes = ["a"] := by
  constructor
  · intro hmem
    have h := ((c3_amended c3Room "a" 2000 _ rfl rfl).1).mp hmem
    exact absurd h (by decide)
  · have h := (c3_amended c3Room "a" 2000 _ rfl rfl).2
    simpa using h

/-- Membership through `Map.set`. -/
theorem mem_of_setA {l : List (String × Member)} {k : String} {v : Member}
    {p : String × Member} : p ∈ setA l k v → p = (k, v) ∨ p ∈ l := by
  induction l with
  | nil => intro h; simpa [setA] using h
  | cons hd tl ih =>
    obtain ⟨k0, v0⟩ := hd
    intro h
    by_cases hk : k0 = k
    · simp only [setA, if_pos hk, List.mem_cons] at h
      rcases h with h | h
      · exact Or.inl h
      · exact Or.inr (List.mem_cons_of_mem _ h)
    · simp only [setA, if_neg hk, List.mem_cons] at h
      rcases h with h | h
      · exact Or.inr (by simp [h])
      · rcases ih h with h' | h'
        · exact Or.inl h'
        · exact Or.inr (List.mem_cons_of_mem _ h')

/-- Membership through `Map.delete`. -/
theorem mem_of_eraseA {l : List (String × Member)} {k : String}
    {p : String × Member} : p ∈ eraseA l k → p ∈ l := by
  induction l with
  | nil => intro h; simp [eraseA] at h
  | cons hd tl ih =>
    obtain ⟨k0, v0⟩ := hd
    intro h
    by_cases hk : k0 = k
    · simp only [eraseA, if_pos hk] at h
      exact List.mem_cons_of_mem _ h
    · simp only [eraseA, if_neg hk, List.mem_cons] at h
      rcases h with h | h
      · simp [h]
      · exact List.mem_cons_of_mem _ (ih h)

/-- Updating, through `Map.set`, the member that a name lookup resolves
leaves it the first member of that name (keys are unique in a `Map`). -/
theorem find?_name_setA (users : List (String × Member)) (pn k : String)
    (m m' : Member)
    (hf : users.find? (fun p => p.2.name = pn) = some (k, m))
    (hn : m'.name = m.name)
    (hnd : (users.map Prod.fst).Nodup) :
    (setA users k m').find? (fun p => p.2.name = pn) = some (k, m') := by
  induction users with
  | nil => simp at hf
  | cons hd tl ih =>
    obtain ⟨k0, v0⟩ := hd
    by_cases hpd : v0.name = pn
    · rw [List.find?_cons_of_pos _ (by simpa using hpd)] at hf
      have h1 : k0 = k := by
        have := congrArg (fun o => (Option.map Prod.fst o)) hf
        simpa using this
      have h2 : v0 = m := by
        have := congrArg (fun o => (Option.map Prod.snd o)) hf
        simpa using this
      simp only [setA, if_pos h1]
      exact List.find?_cons_of_pos _ (by simp [hn, ← h2, hpd])
    · rw [List.find?_cons_of_neg _ (by simpa using hpd)] at hf
      have hmem : (k, m) ∈ tl := List.mem_of_find?_eq_some hf
      have hkmem : k ∈ tl.map Prod.fst := List.mem_map.mpr ⟨(k, m), hmem, rfl⟩
      have hk : ¬ (k0 = k) := by
        intro he
        rw [List.map_cons, List.nodup_cons] at hnd
        exact hnd.1 (he ▸ hkmem)
      simp only [setA, if_neg hk]
      rw [List.find?_cons_of_neg _ (by simpa using hpd)]
      exact ih hf (by rw [List.map_cons, List.nodup_cons] at hnd; exact hnd.2)

/-- Claim C10: `awardPoints`/`deductPoints` coerce their amount with
`Number(points) || 10`, so an amount of `0` (and likewise `NaN`, a
non-numeric value, or an omitted argument, all modelled as `none`) behaves
exactly like the default: `+10`, respectively `−10` clamped at zero. -/
theorem c10_default_point_coercion (room : Room) (sid pn : String)
    (entry : String × Member)
    (hh : room.hostId = sid) (hg : room.gameType = "buzzer")
    (hnd : (room.users.map Prod.fst).Nodup)
    (hf : room.users.find? (fun p => p.2.name = pn) = some entry) :
    applyOp room (Op.awardPoints sid pn (some 0)) =
      applyOp room (Op.awardPoints sid pn none) ∧
    applyOp room (Op.deductPoints sid pn (some 0)) =
      applyOp room (Op.deductPoints sid pn none) ∧
    scoreOf (applyOp room (Op.awardPoints sid pn none)).1 pn =
      some (entry.2.score + 10) ∧
    scoreOf (applyOp room (Op.deductPoints sid pn none)).1 pn =
      some (if entry.2.score - 10 < 0 then 0 else entry.2.score - 10) := by
  have hc : coercePts (some 0) = coercePts none := by simp [coercePts]
  have hf' : room.users.find? (fun p => p.2.name = pn) = some (entry.1, entry.2) := hf
  refine ⟨by simp [applyOp, applyAward, hc], by simp [applyOp, applyDeduct, hc], ?_, ?_⟩
  · have hx := find?_name_setA room.users pn entry.1 entry.2
      ⟨entry.2.name, entry.2.score + 10, entry.2.uid⟩ hf' rfl hnd
    simp only [applyOp, applyAward, hh, hg, hf, scoreOf, coercePts]
    simp only [ne_eq, not_true_eq_false, if_false, reduceIte]
    rw [hx]
    rfl
  · have hx := find?_name_setA room.users pn entry.1 entry.2
      ⟨entry.2.name, if entry.2.score - 10 < 0 then 0 else entry.2.score - 10,
        entry.2.uid⟩ hf' rfl hnd
    simp only [applyOp, applyDeduct, hh, hg, hf, scoreOf, coercePts]
    simp only [ne_eq, not_true_eq_false, if_false, reduceIte]
    rw [hx]
    rfl

/-- A list starts with itself. -/
theorem leadsWith_refl (l : List Char) : leadsWith l l = true := by
  induction l with
  | nil => rfl
  | cons c cs ih => simp [leadsWith, ih]

/-- The `includes` test is reflexive: every string contains itself. -/
theorem incl_self (l : List Char) : incl l l = true := by
  cases l with
  | nil => rfl
  | cons c cs => simp [incl, leadsWith_refl]

/-- A string whose normal form is non-empty normalises to a non-empty
character list. -/
theorem normalize_ne_nil {s : String} (h : normalizeS s ≠ "") :
    (normalize s.data).isEmpty = false := by
  cases hc : normalize s.data with
  | nil => exact absurd (by simp [normalizeS, hc]) h
  | cons a l => rfl

/-- Claim C8, amended: the unified text-mode match accepts the exact title
(resp. the exact artist) as a guess whenever that string's normal form is
non-empty; a guess whose normal form is empty is always rejected, which is
the only exception (see the counterexample). -/
theorem c8_exact_guess_accepted (title artist : String) :
    (normalizeS title ≠ "" → isGuessCorrectS title title artist = true) ∧
    (normalizeS artist ≠ "" → isGuessCorrectS artist title artist = true) := by
  constructor
  · intro h
    have hne := normalize_ne_nil h
    simp only [isGuessCorrectS, isGuessCorrect]
    simp [hne, incl_self]
  · intro h
    have hne := normalize_ne_nil h
    simp only [isGuessCorrectS, isGuessCorrect]
    simp only [hne, Bool.false_eq_true, if_false]
    split
    · rfl
    · simp [hne, incl_self]

/-- Witness for `c8_exact_guess_accepted` on the scenario's track. -/
theorem c8_exact_guess_accepted_witness :
    normalizeS "Deszcz na betonie" ≠ "" ∧
    isGuessCorrectS "Deszcz na betonie" "Deszcz na betonie" "Taco Hemingway" = true ∧
    normalizeS "Taco Hemingway" ≠ "" ∧
    isGuessCorrectS "Taco Hemingway" "Deszcz na betonie" "Taco Hemingway" = true := by
  refine ⟨by decide, ?_, by decide, ?_⟩
  · exact (c8_exact_guess_accepted "Deszcz na betonie" "Taco Hemingway").1 (by decide)
  · exact (c8_exact_guess_accepted "Deszcz na betonie" "Taco Hemingway").2 (by decide)

/-- The map `toLowerChar` fixes everything outside `A`–`Z`. -/
theorem toLowerChar_eq_self {c : Char} (h : ¬(65 ≤ c.toNat ∧ c.toNat ≤ 90)) :
    toLowerChar c = c := dif_neg h

/-- The map `toLowerChar` maps `A`–`Z` to the code point 32 higher. -/
theorem toLowerChar_toNat {c : Char} (h : 65 ≤ c.toNat ∧ c.toNat ≤ 90) :
    (toLowerChar c).toNat = c.toNat + 32 := by
  unfold toLowerChar
  rw [dif_pos h]
  rfl

/-- Lowercasing a character twice is the same as lowercasing it once. -/
theorem toLowerChar_idem (c : Char) :
    toLowerChar (toLowerChar c) = toLowerChar c := by
  by_cases h : 65 ≤ c.toNat ∧ c.toNat ≤ 90
  · have ht := toLowerChar_toNat h
    exact toLowerChar_eq_self (by omega)
  · rw [toLowerChar_eq_self h, toLowerChar_eq_self h]

/-- A map that fixes every element of a list fixes the list. -/
theorem map_id_of_fix {f : Char → Char} {l : List Char}
    (h : ∀ c ∈ l, f c = c) : l.map f = l := by
  induction l with
  | nil => rfl
  | cons c cs ih =>
    rw [List.map_cons, h c (List.mem_cons_self c cs),
      ih (fun d hd => h d (List.mem_cons_of_mem c hd))]

/-- The bracket pass fixes lists without opening brackets. -/
theorem brGo0_id {l : List Char} (h : ∀ c ∈ l, openClose c = none) :
    brGo 0 l = l := by
  induction l with
  | nil => rfl
  | cons c cs ih =>
    have hc := h c (List.mem_cons_self c cs)
    simp only [brGo, hc]
    rw [ih (fun d hd => h d (List.mem_cons_of_mem c hd))]

/-- Characters of the kept class are not opening brackets. -/
theorem keep_open {x : Char} (hx : keepChar x = true) : openClose x = none := by
  unfold openClose
  split_ifs with h1 h2 h3
  · rw [h1] at hx; exact absurd hx (by decide)
  · rw [h2] at hx; exact absurd hx (by decide)
  · rw [h3] at hx; exact absurd hx (by decide)
  · rfl

/-- Characters of the collapse scanner's output are spaces or input
characters. -/
theorem mem_ct2_aux (l : List Char) :
    (∀ x ∈ ct2 l, x = ' ' ∨ x ∈ l) ∧ (∀ x ∈ ct2sp l, x = ' ' ∨ x ∈ l) := by
  induction l with
  | nil => constructor <;> (intro x hx; simp [ct2, ct2sp] at hx)
  | cons c cs ih =>
    constructor
    · intro x hx
      by_cases hc : isJsSpace c
      · simp only [ct2, hc, if_true] at hx
        rcases ih.2 x hx with h | h
        · exact Or.inl h
        · exact Or.inr (List.mem_cons_of_mem c h)
      · simp only [ct2, hc, Bool.false_eq_true, if_false, List.mem_cons] at hx
        rcases hx with rfl | hx
        · exact Or.inr (List.mem_cons_self x cs)
        · rcases ih.1 x hx with h | h
          · exact Or.inl h
          · exact Or.inr (List.mem_cons_of_mem c h)
    · intro x hx
      by_cases hc : isJsSpace c
      · simp only [ct2sp, hc, if_true] at hx
        rcases ih.2 x hx with h | h
        · exact Or.inl h
        · exact Or.inr (List.mem_cons_of_mem c h)
      · simp only [ct2sp, hc, Bool.false_eq_true, if_false, List.mem_cons] at hx
        rcases hx with rfl | rfl | hx
        · exact Or.inl rfl
        · exact Or.inr (List.mem_cons_self x cs)
        · rcases ih.1 x hx with h | h
          · exact Or.inl h
          · exact Or.inr (List.mem_cons_of_mem c h)

/-- Characters of `collapseTrim l` are spaces or characters of `l`. -/
theorem mem_collapseTrim {l : List Char} {x : Char}
    (hx : x ∈ collapseTrim l) : x = ' ' ∨ x ∈ l := by
  rcases (mem_ct2_aux (l.dropWhile isJsSpace)).1 x hx with h | h
  · exact Or.inl h
  · exact Or.inr ((List.dropWhile_sublist isJsSpace).subset h)

/-- Every character of a normalised string is in the kept class and fixed
by lowercasing. -/
theorem mem_normalize {s : List Char} {x : Char} (hx : x ∈ normalize s) :
    keepChar x = true ∧ toLowerChar x = x := by
  have hsp : keepChar ' ' = true ∧ toLowerChar ' ' = ' ' := by
    exact ⟨by decide, by decide⟩
  rcases mem_collapseTrim hx with rfl | hx2
  · exact hsp
  · rcases List.mem_map.mp hx2 with ⟨d, hd, heq⟩
    by_cases hk : keepChar d = true
    · rw [if_pos hk] at heq
      subst heq
      rcases List.mem_map.mp hd with ⟨e, _, hde⟩
      subst hde
      exact ⟨hk, toLowerChar_idem e⟩
    · rw [if_neg hk] at heq
      subst heq
      exact hsp

/-- The predicate `wsOk` survives prepending a non-space character. -/
theorem wsOk_cons {c : Char} {l : List Char} (hc : isJsSpace c = false)
    (hl : wsOk l = true) : wsOk (c :: l) = true := by
  cases l with
  | nil => simp [wsOk, hc]
  | cons d rest => simp [wsOk, hc, hl]

/-- The predicate `wsOk` survives prepending a single space before a non-space head. -/
theorem wsOk_cons_space {d : Char} {l : List Char} (hd : isJsSpace d = false)
    (hl : wsOk (d :: l) = true) : wsOk (' ' :: d :: l) = true := by
  simp [wsOk, hd, hl]

/-- The predicate `wsOk` passes to the tail. -/
theorem wsOk_tail {c : Char} {l : List Char} (h : wsOk (c :: l) = true) :
    wsOk l = true := by
  cases l with
  | nil => rfl
  | cons d rest =>
    simp only [wsOk, Bool.and_eq_true] at h
    exact h.2

/-- The collapse scanner's outputs are whitespace-normal. -/
theorem wsOk_ct2 (l : List Char) :
    wsOk (ct2 l) = true ∧ wsOk (ct2sp l) = true := by
  induction l with
  | nil => exact ⟨rfl, rfl⟩
  | cons c cs ih =>
    constructor
    · by_cases hc : isJsSpace c
      · simp only [ct2, hc, if_true]
        exact ih.2
      · simp only [ct2, hc, Bool.false_eq_true, if_false]
        exact wsOk_cons (by simp [hc]) ih.1
    · by_cases hc : isJsSpace c
      · simp only [ct2sp, hc, if_true]
        exact ih.2
      · simp only [ct2sp, hc, Bool.false_eq_true, if_false]
        exact wsOk_cons_space (by simp [hc]) (wsOk_cons (by simp [hc]) ih.1)

/-- The collapse scanner fixes whitespace-normal lists. -/
theorem ct2_fix (m : List Char) (h : wsOk m = true) : ct2 m = m := by
  have H : ∀ n (m : List Char), m.length ≤ n → wsOk m = true → ct2 m = m := by
    intro n
    induction n with
    | zero =>
      intro m hlen _
      have : m = [] := List.eq_nil_of_length_eq_zero (Nat.le_zero.mp hlen)
      rw [this]
      rfl
    | succ n ih =>
      intro m hlen hok
      match m with
      | [] => rfl
      | [c] =>
        have hc : isJsSpace c = false := by simpa [wsOk] using hok
        simp [ct2, hc]
      | c :: d :: rest =>
        by_cases hc : isJsSpace c
        · have hok' : ((c == ' ') && !isJsSpace d) = true ∧ wsOk (d :: rest) = true := by
            simpa [wsOk, hc] using hok
          have hceq : c = ' ' := by
            have := hok'.1
            simp only [Bool.and_eq_true, beq_iff_eq] at this
            exact this.1
          have hd : isJsSpace d = false := by
            have := hok'.1
            simp only [Bool.and_eq_true, Bool.not_eq_true'] at this
            exact this.2
          have hrest : ct2 rest = rest := by
            refine ih rest ?_ (wsOk_tail hok'.2)
            simp only [List.length_cons] at hlen ⊢
            omega
          simp [ct2, ct2sp, hc, hd, hceq, hrest]
        · have hrest : ct2 (d :: rest) = d :: rest := by
            refine ih (d :: rest) ?_ (wsOk_tail hok)
            simp only [List.length_cons] at hlen ⊢
            omega
          have hstep : ct2 (c :: d :: rest) = c :: ct2 (d :: rest) := by
            simp [ct2, hc]
          rw [hstep, hrest]
  exact H m.length m (le_refl _) h

/-- The head of a `dropWhile isJsSpace` is a non-space character. -/
theorem dw_head (l : List Char) :
    l.dropWhile isJsSpace = [] ∨
    ∃ c cs, l.dropWhile isJsSpace = c :: cs ∧ isJsSpace c = false := by
  induction l with
  | nil => exact Or.inl rfl
  | cons c cs ih =>
    by_cases hc : isJsSpace c
    · rw [List.dropWhile_cons_of_pos hc]
      exact ih
    · rw [List.dropWhile_cons_of_neg hc]
      exact Or.inr ⟨c, cs, rfl, by simpa using hc⟩

/-- The scanner `ct2` preserves a non-space head. -/
theorem ct2_head {l : List Char}
    (h : l = [] ∨ ∃ c cs, l = c :: cs ∧ isJsSpace c = false) :
    ct2 l = [] ∨ ∃ c cs, ct2 l = c :: cs ∧ isJsSpace c = false := by
  rcases h with rfl | ⟨c, cs, rfl, hc⟩
  · exact Or.inl rfl
  · refine Or.inr ⟨c, ct2 cs, ?_, hc⟩
    simp [ct2, hc]

/-- The function `dropWhile` fixes lists whose head is not a space. -/
theorem dropWhile_of_head {l : List Char}
    (h : l = [] ∨ ∃ c cs, l = c :: cs ∧ isJsSpace c = false) :
    l.dropWhile isJsSpace = l := by
  rcases h with rfl | ⟨c, cs, rfl, hc⟩
  · rfl
  · rw [List.dropWhile_cons_of_neg (by simp [hc])]

/-- The function `collapseTrim` is idempotent. -/
theorem collapseTrim_idem (u : List Char) :
    collapseTrim (collapseTrim u) = collapseTrim u := by
  unfold collapseTrim
  rw [dropWhile_of_head (ct2_head (dw_head u))]
  exact ct2_fix _ (wsOk_ct2 _).1

/-- Claim C9, amended: `normalize` is idempotent on every input whose
normal form is left unchanged by the two noise-word removal passes (in
particular, whose normal form contains no noise phrase such as
"official video" or "hd" re-created by punctuation removal).  Without that
proviso idempotence fails — see the counterexample "official.video". -/
theorem c9_normalize_idempotent_amended (s : List Char)
    (h1 : junkPass1 (normalize s) = normalize s)
    (h2 : junkPass2 (normalize s) = normalize s) :
    normalize (normalize s) = normalize s := by
  have hchar : ∀ x ∈ normalize s, keepChar x = true ∧ toLowerChar x = x :=
    fun x hx => mem_normalize hx
  have hb : bracketPass (normalize s) = normalize s :=
    brGo0_id (fun c hc => keep_open (hchar c hc).1)
  have hl : (normalize s).map toLowerChar = normalize s :=
    map_id_of_fix (fun c hc => (hchar c hc).2)
  have hpp : punctPass (normalize s) = normalize s :=
    map_id_of_fix (fun c hc => by simp [(hchar c hc).1])
  have hct : collapseTrim (normalize s) = normalize s :=
    collapseTrim_idem _
  show collapseTrim
      (punctPass ((junkPass2 (junkPass1 (bracketPass (normalize s)))).map toLowerChar)) =
    normalize s
  rw [hb, h1, h2, hl, hpp, hct]

/-- Witness for `c9_normalize_idempotent_amended` on a bracketed, accented
input whose normal form "deszcz betonie" contains no noise phrase. -/
theorem c9_normalize_idempotent_amended_witness :
    junkPass1 (normalize "Deszcz (na) betonie!".data) =
      normalize "Deszcz (na) betonie!".data ∧
    junkPass2 (normalize "Deszcz (na) betonie!".data) =
      normalize "Deszcz (na) betonie!".data ∧
    normalize (normalize "Deszcz (na) betonie!".data) =
      normalize "Deszcz (na) betonie!".data := by
  refine ⟨by decide, by decide, ?_⟩
  exact c9_normalize_idempotent_amended _ (by decide) (by decide)

/-- Transport of `scoresOk` along rooms with the same members and player
table. -/
theorem scoresOk_of_fields {room room' : Room} (hu : room'.users = room.users)
    (hp : room'.players = room.players) (h : scoresOk room) : scoresOk room' := by
  obtain ⟨h1, h2⟩ := h
  exact ⟨by rw [hu]; exact h1, by rw [hp]; exact h2⟩

/-- The `startGame` handler does not touch members or the player table. -/
theorem startGame_fields (room : Room) (sid mode : String) (tracks : List Track)
    (gameType : Option String) :
    (applyStartGame room sid mode tracks gameType).1.users = room.users ∧
    (applyStartGame room sid mode tracks gameType).1.players = room.players := by
  unfold applyStartGame
  split <;> exact ⟨rfl, rfl⟩

/-- The `voteSkip` handler does not touch members or the player table. -/
theorem voteSkip_fields (room : Room) (sid : String) (now : Int) :
    (applyVoteSkip room sid now).1.users = room.users ∧
    (applyVoteSkip room sid now).1.players = room.players := by
  unfold applyVoteSkip
  dsimp only
  repeat' split
  all_goals exact ⟨rfl, rfl⟩

/-- The `buzz` handler does not touch members or the player table. -/
theorem buzz_fields (room : Room) (sid : String) (now : Int) :
    (applyBuzz room sid now).1.users = room.users ∧
    (applyBuzz room sid now).1.players = room.players := by
  unfold applyBuzz
  dsimp only
  repeat' split
  all_goals exact ⟨rfl, rfl⟩

/-- The `passBuzzer` handler does not touch members or the player table. -/
theorem passBuzzer_fields (room : Room) (sid : String) :
    (applyPassBuzzer room sid).1.users = room.users ∧
    (applyPassBuzzer room sid).1.players = room.players := by
  unfold applyPassBuzzer
  dsimp only
  repeat' split
  all_goals exact ⟨rfl, rfl⟩

/-- The `endRoundManual` handler does not touch members or the player table. -/
theorem endRoundManual_fields (room : Room) (sid : String) (now : Int) :
    (applyEndRoundManual room sid now).1.users = room.users ∧
    (applyEndRoundManual room sid now).1.players = room.players := by
  unfold applyEndRoundManual
  dsimp only
  repeat' split
  all_goals exact ⟨rfl, rfl⟩

/-- The `pauseRound` handler does not touch members or the player table. -/
theorem pauseRound_fields (room : Room) (sid : String) :
    (applyPauseRound room sid).1.users = room.users ∧
    (applyPauseRound room sid).1.players = room.players := by
  unfold applyPauseRound
  repeat' split
  all_goals exact ⟨rfl, rfl⟩

/-- The `resumeRound` handler does not touch members or the player table. -/
theorem resumeRound_fields (room : Room) (sid : String) :
    (applyResumeRound room sid).1.users = room.users ∧
    (applyResumeRound room sid).1.players = room.players := by
  unfold applyResumeRound
  repeat' split
  all_goals exact ⟨rfl, rfl⟩

/-- The points of a text-mode guess are non-negative (0, 5 or 10). -/
theorem textPoints_nonneg (g a t : String) : 0 ≤ textPoints g a t := by
  unfold textPoints
  dsimp only
  split_ifs <;> decide

/-- The `joinRoom` handler preserves non-negativity of all scores. -/
theorem join_scoresOk (room : Room) (sid name : String) (uid : Option String)
    (h : scoresOk room) : scoresOk (applyJoin room sid name uid).1 := by
  obtain ⟨hu, hp⟩ := h
  cases uid with
  | none =>
    unfold applyJoin joinFresh
    refine ⟨?_, hp⟩
    intro p hpmem
    rcases mem_of_setA hpmem with rfl | hmem
    · simp
    · exact hu p hmem
  | some u =>
    unfold applyJoin
    dsimp only
    split_ifs with h1 h2
    all_goals (
      split
      case _ entry heq =>
        refine ⟨?_, hp⟩
        intro p hpmem
        rcases mem_of_setA hpmem with rfl | hmem
        · exact hu entry (List.mem_of_find?_eq_some heq)
        · exact hu p (mem_of_eraseA hmem)
      case _ heq =>
        unfold joinFresh
        refine ⟨?_, hp⟩
        intro p hpmem
        rcases mem_of_setA hpmem with rfl | hmem
        · simp only
          split
          case _ q heq2 => exact hp q (List.mem_of_find?_eq_some heq2)
          case _ => exact le_refl 0
        · exact hu p hmem)

/-- The host transfer changes neither members nor the player table nor the
round. -/
theorem hostTransfer_fields (sid : String) (r : Room) :
    (hostTransfer sid r).users = r.users ∧
    (hostTransfer sid r).players = r.players ∧
    (hostTransfer sid r).currentRound = r.currentRound := by
  unfold hostTransfer
  split <;> exact ⟨rfl, rfl, rfl⟩

/-- The `disconnect` handler preserves non-negativity of all scores. -/
theorem disconnect_scoresOk (room : Room) (sid : String) (h : scoresOk room) :
    scoresOk (applyDisconnect room sid).1 := by
  obtain ⟨hu, hp⟩ := h
  unfold applyDisconnect
  dsimp only
  repeat' split
  all_goals
    first
    | exact ⟨hu, hp⟩
    | (refine ⟨?_, ?_⟩
       · intro p hpmem
         try rw [(hostTransfer_fields _ _).1] at hpmem
         exact hu p (mem_of_eraseA hpmem)
       · intro q hq
         try rw [(hostTransfer_fields _ _).2.1] at hq
         exact hp q hq)

/-- The `guess` handler preserves non-negativity of all scores. -/
theorem guess_scoresOk (room : Room) (sid text : String) (now : Int)
    (h : scoresOk room) : scoresOk (applyGuess room sid text now).1 := by
  obtain ⟨hu, hp⟩ := h
  unfold applyGuess
  dsimp only
  split
  next => exact ⟨hu, hp⟩
  next r hr =>
    split
    next => exact ⟨hu, hp⟩
    next =>
      split
      next => exact ⟨hu, hp⟩
      next =>
        split
        next => exact ⟨hu, hp⟩
        next =>
          split
          next fnd heq =>
            refine ⟨?_, hp⟩
            intro p hpmem
            rcases mem_of_setA hpmem with rfl | hmem
            · have h0 := hu fnd (List.mem_of_find?_eq_some heq)
              have h5 := textPoints_nonneg text r.answerArtist r.answerTitle
              dsimp only
              omega
            · exact hu p hmem
          next => exact ⟨hu, hp⟩

/-- The `awardPoints` handler preserves non-negativity when the amount is
non-negative. -/
theorem award_scoresOk (room : Room) (sid pn : String) (v : Option Int)
    (h : scoresOk room) (hv : 0 ≤ coercePts v) :
    scoresOk (applyAward room sid pn v).1 := by
  obtain ⟨hu, hp⟩ := h
  unfold applyAward
  dsimp only
  split
  next => exact ⟨hu, hp⟩
  next =>
    split
    next => exact ⟨hu, hp⟩
    next =>
      split
      next => exact ⟨hu, hp⟩
      next entry heq =>
        refine ⟨?_, hp⟩
        intro p hpmem
        rcases mem_of_setA hpmem with rfl | hmem
        · have h0 := hu entry (List.mem_of_find?_eq_some heq)
          dsimp only
          omega
        · exact hu p hmem

/-- The `deductPoints` handler preserves non-negativity unconditionally (the score is
clamped at zero). -/
theorem deduct_scoresOk (room : Room) (sid pn : String) (v : Option Int)
    (h : scoresOk room) : scoresOk (applyDeduct room sid pn v).1 := by
  obtain ⟨hu, hp⟩ := h
  unfold applyDeduct
  dsimp only
  split
  next => exact ⟨hu, hp⟩
  next =>
    split
    next => exact ⟨hu, hp⟩
    next =>
      split
      next => exact ⟨hu, hp⟩
      next entry heq =>
        refine ⟨?_, hp⟩
        intro p hpmem
        rcases mem_of_setA hpmem with rfl | hmem
        · dsimp only
          split <;> omega
        · exact hu p hmem

/-- One engine step preserves non-negativity of all scores, provided any
`awardPoints` amount coerces to a non-negative value. -/
theorem scoresOk_step (room : Room) (op : Op) (h : scoresOk room)
    (hs : awardSafe op) : scoresOk (applyOp room op).1 := by
  cases op with
  | joinRoom sid name uid => exact join_scoresOk room sid name uid h
  | disconnect sid => exact disconnect_scoresOk room sid h
  | startGame sid mode tracks gameType =>
    exact scoresOk_of_fields (startGame_fields room sid mode tracks gameType).1
      (startGame_fields room sid mode tracks gameType).2 h
  | guess sid text now => exact guess_scoresOk room sid text now h
  | voteSkip sid now =>
    exact scoresOk_of_fields (voteSkip_fields room sid now).1
      (voteSkip_fields room sid now).2 h
  | buzz sid now =>
    exact scoresOk_of_fields (buzz_fields room sid now).1
      (buzz_fields room sid now).2 h
  | passBuzzer sid =>
    exact scoresOk_of_fields (passBuzzer_fields room sid).1
      (passBuzzer_fields room sid).2 h
  | awardPoints sid pn v => exact award_scoresOk room sid pn v h hs
  | deductPoints sid pn v => exact deduct_scoresOk room sid pn v h
  | endRoundManual sid now =>
    exact scoresOk_of_fields (endRoundManual_fields room sid now).1
      (endRoundManual_fields room sid now).2 h
  | pauseRound sid =>
    exact scoresOk_of_fields (pauseRound_fields room sid).1
      (pauseRound_fields room sid).2 h
  | resumeRound sid =>
    exact scoresOk_of_fields (resumeRound_fields room sid).1
      (resumeRound_fields room sid).2 h

/-- Claim C2, amended: along every history whose `awardPoints` amounts
coerce to non-negative values, every score stays non-negative after every
step (`deductPoints` clamps at zero, so arbitrary deduction amounts are
safe; but the source also accepts negative award amounts, which break the
invariant — see the counterexample).  Moreover `awardPoints` changes the
named member's score by exactly the coerced amount (default 10) and
`deductPoints` lowers it by the coerced amount, clamped at zero. -/
theorem c2_scores_nonneg_amended :
    (∀ room ops, scoresOk room → (∀ op ∈ ops, awardSafe op) →
      scoresOk (runOps room ops)) ∧
    (∀ room sid pn entry v, room.hostId = sid → room.gameType = "buzzer" →
      (room.users.map Prod.fst).Nodup →
      room.users.find? (fun p => p.2.name = pn) = some entry →
      scoreOf (applyOp room (Op.awardPoints sid pn v)).1 pn =
        some (entry.2.score + coercePts v) ∧
      scoreOf (applyOp room (Op.deductPoints sid pn v)).1 pn =
        some (if entry.2.score - coercePts v < 0 then 0
              else entry.2.score - coercePts v)) := by
  constructor
  · intro room ops h hsafe
    induction ops generalizing room with
    | nil => exact h
    | cons op ops ih =>
      exact ih (applyOp room op).1 (scoresOk_step room op h (hsafe op (by simp)))
        (fun o ho => hsafe o (by simp [ho]))
  · intro room sid pn entry v hh hg hnd hf
    have hf' : room.users.find? (fun p => p.2.name = pn) = some (entry.1, entry.2) := hf
    constructor
    · have hx := find?_name_setA room.users pn entry.1 entry.2
        ⟨entry.2.name, entry.2.score + coercePts v, entry.2.uid⟩ hf' rfl hnd
      simp only [applyOp, applyAward, hh, hg, hf, scoreOf]
      simp only [ne_eq, not_true_eq_false, if_false, reduceIte]
      rw [hx]
      rfl
    · have hx := find?_name_setA room.users pn entry.1 entry.2
        ⟨entry.2.name, if entry.2.score - coercePts v < 0 then 0
          else entry.2.score - coercePts v, entry.2.uid⟩ hf' rfl hnd
      simp only [applyOp, applyDeduct, hh, hg, hf, scoreOf]
      simp only [ne_eq, not_true_eq_false, if_false, reduceIte]
      rw [hx]
      rfl

/-- Witness for `c2_scores_nonneg_amended`: the award-safe history that
plays the whole C2 scenario with `+20` instead of `-20` keeps all scores
non-negative, and the award moves Alice's score by exactly 20. -/
theorem c2_scores_nonneg_amended_witness :
    scoresOk (runOps c2Room
      [Op.joinRoom "h" "Alice" none,
       Op.startGame "h" "spotify" [⟨"T", "A"⟩] (some "buzzer"),
       Op.awardPoints "h" "Alice" (some 20)]) ∧
    scoreOf (applyOp c7Room (Op.awardPoints "h" "Bob" (some 20))).1 "Bob" =
      some 20 := by
  constructor
  · refine c2_scores_nonneg_amended.1 c2Room _ ⟨?_, ?_⟩ ?_
    · intro p hpmem
      simp [c2Room] at hpmem
    · intro q hqmem
      simp [c2Room] at hqmem
    · intro op hop
      simp only [List.mem_cons, List.mem_singleton] at hop
      rcases hop with rfl | rfl | rfl | h
      · trivial
      · trivial
      · show (0 : Int) ≤ coercePts (some 20)
        decide
      · simp at h
  · have h := (c2_scores_nonneg_amended.2 c7Room "h" "Bob" ("b", ⟨"Bob", 0, none⟩)
      (some 20) rfl rfl (by decide) (by decide)).1
    simpa using h

/-- Transport of `buzzInv` along rooms with the same buzzer. -/
theorem buzzInv_of_eq {room room' : Room} (he : buzzOf room' = buzzOf room)
    (h : buzzInv room) : buzzInv room' := by
  unfold buzzInv at h ⊢
  rw [he]
  exact h

/-- The `joinRoom` handler does not touch the current round. -/
theorem join_buzzOf (room : Room) (sid name : String) (uid : Option String) :
    buzzOf (applyJoin room sid name uid).1 = buzzOf room := by
  cases uid with
  | none => rfl
  | some u =>
    unfold applyJoin joinFresh
    dsimp only
    split_ifs <;> (split <;> rfl)

/-- The `startGame` handler clears the current round (on success) or leaves the room
unchanged. -/
theorem startGame_buzzInv (room : Room) (sid mode : String) (tracks : List Track)
    (gameType : Option String) (h : buzzInv room) :
    buzzInv (applyStartGame room sid mode tracks gameType).1 := by
  unfold applyStartGame
  dsimp only
  split
  · exact h
  · unfold buzzInv buzzOf
    simp

/-- The `guess` handler can only set the solved flag; the buzzer is untouched. -/
theorem guess_buzzOf (room : Room) (sid text : String) (now : Int) :
    buzzOf (applyGuess room sid text now).1 = buzzOf room := by
  unfold applyGuess
  dsimp only
  split
  next => rfl
  next r hr =>
    repeat' split
    all_goals simp [buzzOf, hr]

/-- The `voteSkip` handler can only set the solved flag; the buzzer is untouched. -/
theorem voteSkip_buzzOf (room : Room) (sid : String) (now : Int) :
    buzzOf (applyVoteSkip room sid now).1 = buzzOf room := by
  unfold applyVoteSkip
  dsimp only
  split
  next => rfl
  next r hr =>
    repeat' split
    all_goals simp [buzzOf, hr]

/-- The `awardPoints` handler does not touch the current round. -/
theorem award_buzzOf (room : Room) (sid pn : String) (v : Option Int) :
    buzzOf (applyAward room sid pn v).1 = buzzOf room := by
  unfold applyAward
  dsimp only
  repeat' split
  all_goals rfl

/-- The `deductPoints` handler does not touch the current round. -/
theorem deduct_buzzOf (room : Room) (sid pn : String) (v : Option Int) :
    buzzOf (applyDeduct room sid pn v).1 = buzzOf room := by
  unfold applyDeduct
  dsimp only
  repeat' split
  all_goals rfl

/-- The `endRoundManual` handler can only set the solved flag; the buzzer is
untouched. -/
theorem endRoundManual_buzzOf (room : Room) (sid : String) (now : Int) :
    buzzOf (applyEndRoundManual room sid now).1 = buzzOf room := by
  unfold applyEndRoundManual
  dsimp only
  split
  next => rfl
  next r hr =>
    repeat' split
    all_goals simp [buzzOf, hr]

/-- The `pauseRound` handler can only set the paused flag; the buzzer is untouched. -/
theorem pauseRound_buzzOf (room : Room) (sid : String) :
    buzzOf (applyPauseRound room sid).1 = buzzOf room := by
  unfold applyPauseRound
  split
  next => rfl
  next r hr =>
    split
    · rfl
    · simp [buzzOf, hr]

/-- The `resumeRound` handler can only set the paused flag; the buzzer is untouched. -/
theorem resumeRound_buzzOf (room : Room) (sid : String) :
    buzzOf (applyResumeRound room sid).1 = buzzOf room := by
  unfold applyResumeRound
  split
  next => rfl
  next r hr =>
    split
    · rfl
    · simp [buzzOf, hr]

/-- The `buzz` handler preserves buzzer uniqueness. -/
theorem buzz_buzzInv (room : Room) (sid : String) (now : Int)
    (h : buzzInv room) : buzzInv (applyBuzz room sid now).1 := by
  unfold applyBuzz
  dsimp only
  split
  next => exact h
  next r hr =>
    split
    next => exact h
    next =>
      split
      next => exact h
      next player hplayer =>
        split
        next hb =>
          unfold buzzInv buzzOf
          simp [buzzIds]
        next b hb =>
          split
          next => exact h
          next hdup =>
            simp only [Bool.or_eq_true, decide_eq_true_eq, List.any_eq_true,
              not_or] at hdup
            push_neg at hdup
            unfold buzzInv buzzOf at h ⊢
            simp only [hr, hb] at h
            dsimp only
            simp only [buzzIds, List.map_append, List.map_cons, List.map_nil] at h ⊢
            rw [List.nodup_cons] at h ⊢
            constructor
            · intro hmem
              rcases List.mem_append.mp hmem with hmem' | hmem'
              · exact h.1 hmem'
              · have heq := List.mem_singleton.mp hmem'
                exact hdup.1 heq.symm
            · rw [List.nodup_append]
              refine ⟨h.2, List.nodup_singleton _, ?_⟩
              intro a ha hb'
              have heq := List.mem_singleton.mp hb'
              subst heq
              rcases List.mem_map.mp ha with ⟨q, hq, hq2⟩
              exact hdup.2 q hq hq2

/-- The `passBuzzer` handler preserves buzzer uniqueness. -/
theorem passBuzzer_buzzInv (room : Room) (sid : String) (h : buzzInv room) :
    buzzInv (applyPassBuzzer room sid).1 := by
  unfold applyPassBuzzer
  dsimp only
  split
  next => exact h
  next =>
    split
    next => exact h
    next =>
      split
      next => exact h
      next r hr =>
        split
        next => exact h
        next b hb =>
          split
          next nxt rest hq =>
            unfold buzzInv buzzOf at h ⊢
            simp only [hr, hb] at h
            dsimp only
            simp only [buzzIds, hq, List.map_cons] at h ⊢
            exact h.of_cons
          next =>
            unfold buzzInv buzzOf
            simp

/-- The host transfer does not change the buzzer. -/
theorem buzzOf_hostTransfer (sid : String) (r : Room) :
    buzzOf (hostTransfer sid r) = buzzOf r := by
  unfold buzzOf
  rw [(hostTransfer_fields _ _).2.2]

/-- The `disconnect` handler preserves buzzer uniqueness. -/
theorem disconnect_buzzInv (room : Room) (sid : String) (h : buzzInv room) :
    buzzInv (applyDisconnect room sid).1 := by
  unfold applyDisconnect
  dsimp only
  split
  next => exact h
  next user huser =>
    split
    next r hr =>
      split
      next b hb =>
        have hnd : (buzzIds b).Nodup := by
          unfold buzzInv buzzOf at h
          simpa [hr, hb] using h
        split
        next hcur =>
          split
          next nxt rest hq =>
            unfold buzzInv buzzOf
            rw [(hostTransfer_fields _ _).2.2]
            dsimp only
            simp only [buzzIds, List.map_cons, hq] at hnd ⊢
            have h2 : (nxt.id :: rest.map (fun p => p.id)).Nodup := hnd.of_cons
            rw [List.nodup_cons] at h2 ⊢
            constructor
            · intro hmem
              exact h2.1 (((List.filter_sublist _).map _).mem hmem)
            · exact h2.2.sublist ((List.filter_sublist _).map _)
          next hq =>
            unfold buzzInv buzzOf
            simp
        next hcur =>
          unfold buzzInv buzzOf
          rw [(hostTransfer_fields _ _).2.2]
          dsimp only
          simp only [buzzIds, List.map_cons] at hnd ⊢
          rw [List.nodup_cons] at hnd ⊢
          constructor
          · intro hmem
            exact hnd.1 (((List.filter_sublist _).map _).mem hmem)
          · exact hnd.2.sublist ((List.filter_sublist _).map _)
      next hb =>
        refine buzzInv_of_eq ?_ h
        rw [buzzOf_hostTransfer]
        simp [buzzOf, hr, hb]
    next hr =>
      refine buzzInv_of_eq ?_ h
      rw [buzzOf_hostTransfer]
      simp [buzzOf, hr]

/-- One engine step preserves buzzer uniqueness. -/
theorem buzzInv_step (room : Room) (op : Op) (h : buzzInv room) :
    buzzInv (applyOp room op).1 := by
  cases op with
  | joinRoom sid name uid => exact buzzInv_of_eq (join_buzzOf room sid name uid) h
  | disconnect sid => exact disconnect_buzzInv room sid h
  | startGame sid mode tracks gameType =>
    exact startGame_buzzInv room sid mode tracks gameType h
  | guess sid text now => exact buzzInv_of_eq (guess_buzzOf room sid text now) h
  | voteSkip sid now => exact buzzInv_of_eq (voteSkip_buzzOf room sid now) h
  | buzz sid now => exact buzz_buzzInv room sid now h
  | passBuzzer sid => exact passBuzzer_buzzInv room sid h
  | awardPoints sid pn v => exact buzzInv_of_eq (award_buzzOf room sid pn v) h
  | deductPoints sid pn v => exact buzzInv_of_eq (deduct_buzzOf room sid pn v) h
  | endRoundManual sid now =>
    exact buzzInv_of_eq (endRoundManual_buzzOf room sid now) h
  | pauseRound sid => exact buzzInv_of_eq (pauseRound_buzzOf room sid) h
  | resumeRound sid => exact buzzInv_of_eq (resumeRound_buzzOf room sid) h

/-- Claim C4: along every history of engine operations, no connection
handle appears more than once across the buzzer's holder and queue; and a
duplicate `buzz` from the current holder or an already-queued connection is
rejected as a no-op that leaves the room unchanged and broadcasts
nothing. -/
theorem c4_buzzer_uniqueness :
    (∀ room ops, buzzInv room → buzzInv (runOps room ops)) ∧
    (∀ room sid now r b player, room.currentRound = some r →
      room.gameType = "buzzer" → lookupA room.users sid = some player →
      r.buzzer = some b →
      (sid = b.currentId ∨ b.queue.any (fun p => p.id = sid) = true) →
      applyOp room (Op.buzz sid now) = (room, [], Res.rejected)) := by
  constructor
  · intro room ops h
    induction ops generalizing room with
    | nil => exact h
    | cons op ops ih => exact ih (applyOp room op).1 (buzzInv_step room op h)
  · intro room sid now r b player hr hg hplayer hb hdup
    have hdup' : (sid = b.currentId || b.queue.any (fun p => p.id = sid)) = true := by
      rcases hdup with h1 | h1 <;> simp [h1]
    simp [applyOp, applyBuzz, hr, hg, hplayer, hb, hdup']

/-- Witness for `c4_buzzer_uniqueness`: the invariant survives the
Buzzer-order scenario (Bob buzzes, Carol buzzes, host passes), and Bob's
repeated buzz while holding is rejected without any state change. -/
theorem c4_buzzer_uniqueness_witness :
    buzzInv (runOps c5Room [Op.buzz "b" 1100, Op.buzz "h" 1200, Op.passBuzzer "h"]) ∧
    applyOp c7Room (Op.buzz "b" 1300) = (c7Room, [], Res.rejected) := by
  constructor
  · refine c4_buzzer_uniqueness.1 c5Room _ ?_
    show True
    trivial
  · exact c4_buzzer_uniqueness.2 c7Room "b" 1300 _ _ ⟨"Bob", 0, none⟩ rfl rfl rfl rfl
      (Or.inl rfl)

/-- Witness for `c10_default_point_coercion` at the concrete room
`c7Room`, awarding/deducting to Bob. -/
theorem c10_default_point_coercion_witness :
    applyOp c7Room (Op.awardPoints "h" "Bob" (some 0)) =
      applyOp c7Room (Op.awardPoints "h" "Bob" none) ∧
    scoreOf (applyOp c7Room (Op.awardPoints "h" "Bob" none)).1 "Bob" = some 10 ∧
    scoreOf (applyOp c7Room (Op.deductPoints "h" "Bob" none)).1 "Bob" = some 0 := by
  have h := c10_default_point_coercion c7Room "h" "Bob" ("b", ⟨"Bob", 0, none⟩)
    rfl rfl (by decide) (by decide)
  refine ⟨h.1, ?_, ?_⟩
  · have := h.2.2.1
    simpa using this
  · have := h.2.2.2
    simpa using this

end JTM
